import Mathlib

/-!
A verification development for the adaptive tabular aggregation and paging
pipeline of `src/app.py` (Simple-Web-Dashboard).

The pipeline is shallowly embedded: a table is a list of rows, a row is an
association list from column names to cells, and each stage of the script
(date filtering, KPI computation, grouped aggregation, paging, time
bucketing) becomes a pure Lean function translated from the corresponding
pandas expressions.  Machine floats are modelled by exact arithmetic
(`Int` for metric values, `ℚ` for the mean); pandas missing values (`NaN`
/ `NaT`) are modelled by an explicit `na` cell and `Option` results.
-/

namespace Dashboard

/-- A parsed timestamp: the calendar day (as an ordinal number of days) and a
time-of-day component.  `pandas` datetimes carry both; `.dt.date` keeps only
the day. -/
structure Datetime where
  day : Int
  tod : Nat
deriving DecidableEq, Repr

/-- A cell of a loaded table: a (finite, exact) number, a piece of text, a
parsed datetime, or a missing value (`NaN` / `NaT`). -/
inductive Cell where
  | na : Cell
  | num : Int → Cell
  | str : String → Cell
  | dt : Datetime → Cell
deriving DecidableEq, Repr

/-- A row maps column names to cells (association list, first binding wins on
lookup, as a dataframe row maps column labels to values). -/
abbrev Row : Type := List (String × Cell)

/-- A table is its list of rows, in order (`pandas` row order). -/
abbrev Table : Type := List Row

/-- Reading column `c` of a row; a label the row does not carry reads as
missing. -/
def getCell (r : Row) (c : String) : Cell :=
  match r.find? (fun kv => kv.1 = c) with
  | some kv => kv.2
  | none => Cell.na

/-- Writing column `c` of a row (the assignment
`filtered_df[date_col] = ...` on one row): every binding of the label is
replaced. -/
def setCell (r : Row) (c : String) (v : Cell) : Row :=
  r.map (fun kv => if kv.1 = c then (kv.1, v) else kv)

/-- `pd.to_datetime(value, errors="coerce")` on one cell.  A value that is
already a datetime is returned unchanged and a missing value stays missing
(`NaT`); what text (or number) parses, and to which timestamp, is the
plotting library's locale-dependent parser, abstracted as the parameter
`p`. -/
def toDatetime (p : Cell → Option Datetime) (c : Cell) : Option Datetime :=
  match c with
  | Cell.dt d => some d
  | Cell.na => none
  | c => p c

/-- Lines 66–70 of `app.py`: parse the date column in place
(`errors="coerce"`), then `dropna(subset=[date_col])` — rows whose value
failed to parse are dropped, the others keep their parsed datetime in the
date column. -/
def parsedRows (p : Cell → Option Datetime) (dcol : String) (t : Table) : Table :=
  t.filterMap (fun r =>
    match toDatetime p (getCell r dcol) with
    | some d => some (setCell r dcol (Cell.dt d))
    | none => none)

/-- Lines 85–88 of `app.py`: keep the rows whose parsed date's calendar day
lies in the inclusive `[s, e]` range (`.dt.date >= start` and
`.dt.date <= end`). -/
def rangeRows (dcol : String) (s e : Int) (t : Table) : Table :=
  t.filter (fun r =>
    match getCell r dcol with
    | Cell.dt d => decide (s ≤ d.day) && decide (d.day ≤ e)
    | _ => false)

/-- Lines 63–88 of `app.py` with a date column selected: parse and drop, and
— only when some rows survived parsing (the `if not filtered_df.empty:`
guard) — filter by the caller-supplied inclusive date range. -/
def filtered_df (p : Cell → Option Datetime) (dcol : String) (s e : Int)
    (df : Table) : Table :=
  if parsedRows p dcol df = [] then []
  else rangeRows dcol s e (parsedRows p dcol df)

/-- The table the stage ends up with at line 90: the (copy of the) loaded
table when no date column is selected, the date-filtered table otherwise. -/
def appliedFilter (p : Cell → Option Datetime) (dcol : Option String) (s e : Int)
    (df : Table) : Table :=
  match dcol with
  | none => df
  | some c => filtered_df p c s e df

/-- Lines 62–92 of `app.py`: the whole filter stage.  An empty result halts
with the (single) warning message of line 91. -/
def runFilter (p : Cell → Option Datetime) (dcol : Option String) (s e : Int)
    (df : Table) : Except String Table :=
  if appliedFilter p dcol s e df = [] then
    Except.error "No data available after filtering."
  else Except.ok (appliedFilter p dcol s e df)

/-! ### KPIs (lines 98–100) -/

/-- The numeric content of a cell of the metric column; `na` (and any
non-numeric cell) is a missing value. -/
def cellNum (c : Cell) : Option Int :=
  match c with
  | Cell.num n => some n
  | _ => none

/-- The metric column of a table as pandas sees it for reductions: the list
of its non-missing numeric values, in row order (`skipna=True`, the
default for `sum`, `mean` and `max`). -/
def metricVals (t : Table) (vcol : String) : List Int :=
  t.filterMap (fun r => cellNum (getCell r vcol))

/-- `filtered_df[value_col].sum()` (line 98): sum of the non-missing values;
an all-missing column sums to `0`. -/
def kpiSum (t : Table) (vcol : String) : Int :=
  (metricVals t vcol).sum

/-- `filtered_df[value_col].mean()` (line 99): the mean of the non-missing
values, undefined (`NaN`, modelled as `none`) when there are none. -/
def kpiMean (t : Table) (vcol : String) : Option ℚ :=
  let vs := metricVals t vcol
  if vs = [] then none else some ((vs.sum : ℚ) / (vs.length : ℚ))

/-- `filtered_df[value_col].max()` (line 100): the maximum of the non-missing
values, undefined (`NaN`, modelled as `none`) when there are none. -/
def kpiMax (t : Table) (vcol : String) : Option Int :=
  (metricVals t vcol).max?

/-- The three KPI scalars of lines 98–100, in order (Total, Average, Max). -/
def kpis (t : Table) (vcol : String) : Int × Option ℚ × Option Int :=
  (kpiSum t vcol, kpiMean t vcol, kpiMax t vcol)

/-! ### Ordering of group keys

`groupby(group_col, dropna=False)` emits one group per distinct key, with the
keys sorted ascending (`sort=True`, the pandas default) and the missing-value
group placed last.  We fix the deterministic total order pandas realises:
within one kind, numbers by value, strings lexicographically, datetimes
chronologically; `na` after everything. -/

/-- Kind rank used to compare cells of different constructors; the missing
key sorts after every present key, as pandas places the `NaN` group last. -/
def cellRank (c : Cell) : Nat :=
  match c with
  | Cell.num _ => 0
  | Cell.str _ => 1
  | Cell.dt _ => 2
  | Cell.na => 3

/-- Chronological order on parsed timestamps (day first, then time of day). -/
def dtLt (x y : Datetime) : Bool :=
  decide (x.day < y.day) || (decide (x.day = y.day) && decide (x.tod < y.tod))

/-- Strict total order on cells used by `groupby`'s key sort. -/
def cellLt (a b : Cell) : Bool :=
  match a, b with
  | Cell.num x, Cell.num y => decide (x < y)
  | Cell.str x, Cell.str y => decide (x < y)
  | Cell.dt x, Cell.dt y => dtLt x y
  | a, b => decide (cellRank a < cellRank b)

/-- Reflexive closure of `cellLt`. -/
def cellLe (a b : Cell) : Bool :=
  cellLt a b || decide (a = b)

/-! ### A stable insertion sort

Both sorts of the script — `groupby`'s ascending key sort and
`sort_values(value_col, ascending=False)` — are modelled by one stable
sorting function: each element is inserted in front of the first element it
compares `le` to, so elements that compare equal keep their input order
(the behaviour pandas realises on the aggregated frame). -/

/-- Insert `x` before the first element `y` of `l` with `le x y`. -/
def insertLe (le : α → α → Bool) (x : α) : List α → List α
  | [] => [x]
  | y :: ys => if le x y then x :: y :: ys else y :: insertLe le x ys

/-- Stable insertion sort by `le`. -/
def sortLe (le : α → α → Bool) (l : List α) : List α :=
  l.foldr (insertLe le) []

/-! ### Grouped aggregation and paging (lines 141–171) -/

/-- The distinct values of the group column, in `groupby`'s ascending key
order (missing last). -/
def groupKeys (t : Table) (gcol : String) : List Cell :=
  sortLe cellLe ((t.map (fun r => getCell r gcol)).dedup)

/-- The aggregated sum of the metric over the rows whose group-column cell
equals `k` (pandas sums the non-missing metric values of the group;
an empty or all-missing group sums to `0`). -/
def groupSum (t : Table) (gcol vcol : String) (k : Cell) : Int :=
  kpiSum (t.filter (fun r => getCell r gcol = k)) vcol

/-- Lines 141–147 of `app.py`:
`filtered_df.groupby(group_col, dropna=False)[value_col].sum().reset_index()
.sort_values(value_col, ascending=False)` — one `(key, sum)` pair per
distinct key (the missing key kept as its own group), sorted by sum
descending; pairs with equal sums keep `groupby`'s key order. -/
def bar_df (t : Table) (gcol vcol : String) : List (Cell × Int) :=
  sortLe (fun a b => decide (b.2 ≤ a.2))
    ((groupKeys t gcol).map (fun k => (k, groupSum t gcol vcol k)))

/-- Line 160 of `app.py`: `total_pages = (len(bar_df) - 1) // bars_per_page + 1`
with Python's floor division (so `n = 0` gives `0`). -/
def total_pages (n P : Nat) : Nat :=
  (((n : Int) - 1).fdiv (P : Int) + 1).toNat

/-- Modelled from the spec: the page widget (`st.slider("Page", min_value=1,
max_value=total_pages)`, lines 162–167) is a source of user-selected
parameters outside the pipeline; per the spec it yields the requested index
clamped into `[1, total_pages]`. -/
def page (req tp : Nat) : Nat :=
  min (max req 1) tp

/-- Lines 169–171 of `app.py`: `start = (page - 1) * bars_per_page`,
`end = start + bars_per_page`, `page_df = bar_df.iloc[start:end]`. -/
def page_df (l : List α) (P pg : Nat) : List α :=
  (l.drop ((pg - 1) * P)).take P

/-! ### Time bucketing (lines 114–122) -/

/-- The calendar day of a row's date cell, `none` when not a datetime
(`.dt.date` of `NaT`; the default `groupby` drops missing keys here). -/
def rowDay (dcol : String) (r : Row) : Option Int :=
  match getCell r dcol with
  | Cell.dt d => some d.day
  | _ => none

/-- The distinct calendar days of the date column, ascending (the `groupby`
key sort). -/
def seriesDays (t : Table) (dcol : String) : List Int :=
  sortLe (fun a b => decide (a ≤ b)) ((t.filterMap (rowDay dcol)).dedup)

/-- Lines 114–119 of `app.py`:
`filtered_df.groupby(filtered_df[date_col].dt.date)[value_col].sum()
.reset_index()` — one `(day, sum)` point per distinct calendar day
(time-of-day discarded), ascending by day. -/
def ts_df (t : Table) (dcol vcol : String) : List (Int × Int) :=
  (seriesDays t dcol).map
    (fun d => (d, kpiSum (t.filter (fun r => rowDay dcol r = some d)) vcol))

/-! ### One rendering pass (lines 94–199)

All four output panels of one pass with a date column active: the KPI row,
the time-series panel (which degrades to a warning when fewer than two
distinct dates remain, lines 121–122), the paged bar panel and the raw
distribution data (`filtered_df[value_col]`, line 195). -/

structure PassOutput where
  kpiRow : Int × Option ℚ × Option Int
  series : Except String (List (Int × Int))
  barPage : List (Cell × Int) × Nat × Nat
  dist : List Cell

/-- The metric column as handed to the histogram (line 195), raw cells in
row order. -/
def distVals (t : Table) (vcol : String) : List Cell :=
  t.map (fun r => getCell r vcol)

/-- One rendering pass over the already-filtered table, with a date column
active: each panel is computed independently of the others' success. -/
def renderPass (t : Table) (vcol gcol dcol : String) (P req : Nat) : PassOutput :=
  { kpiRow := kpis t vcol
    series :=
      if (ts_df t dcol vcol).length < 2 then
        Except.error "Not enough data for time series."
      else Except.ok (ts_df t dcol vcol)
    barPage :=
      let b := bar_df t gcol vcol
      let tp := total_pages b.length P
      let pg := page req tp
      (page_df b P pg, pg, tp)
    dist := distVals t vcol }

/-! ## Lemmas about the stable sort -/

theorem insertLe_perm (le : α → α → Bool) (x : α) (l : List α) :
    List.Perm (insertLe le x l) (x :: l) := by
  induction l with
  | nil => exact List.Perm.refl _
  | cons y ys ih =>
    simp only [insertLe]
    by_cases h : le x y = true
    · rw [if_pos h]
    · rw [if_neg h]
      exact (ih.cons y).trans (List.Perm.swap x y ys)

theorem sortLe_perm (le : α → α → Bool) (l : List α) : List.Perm (sortLe le l) l := by
  induction l with
  | nil => exact List.Perm.refl _
  | cons x xs ih =>
    exact (insertLe_perm le x (sortLe le xs)).trans (ih.cons x)

theorem mem_sortLe {le : α → α → Bool} {l : List α} {a : α} :
    a ∈ sortLe le l ↔ a ∈ l :=
  (sortLe_perm le l).mem_iff

theorem insertLe_pairwise {le : α → α → Bool} {R : α → α → Prop} {x : α} :
    ∀ {l : List α},
      (∀ y ∈ l, le x y = true → R x y) →
      (∀ y ∈ l, le x y = false → R y x) →
      (∀ y ∈ l, ∀ z ∈ l, le x y = true → R y z → le x z = true) →
      l.Pairwise R → (insertLe le x l).Pairwise R := by
  intro l
  induction l with
  | nil =>
    intro _ _ _ _
    simp [insertLe]
  | cons y ys ih =>
    intro h1 h2 htr hp
    rw [List.pairwise_cons] at hp
    obtain ⟨hy, hys⟩ := hp
    simp only [insertLe]
    by_cases hxy : le x y = true
    · rw [if_pos hxy]
      refine List.Pairwise.cons ?_ (List.Pairwise.cons hy hys)
      intro z hz
      rcases List.mem_cons.mp hz with rfl | hz'
      · exact h1 z (List.mem_cons_self _ _) hxy
      · exact h1 z (List.mem_cons_of_mem _ hz')
          (htr y (List.mem_cons_self _ _) z (List.mem_cons_of_mem _ hz') hxy (hy z hz'))
    · rw [if_neg hxy]
      have hxy' : le x y = false := by
        cases h : le x y
        · rfl
        · exact absurd h hxy
      refine List.Pairwise.cons ?_
        (ih (fun z hz hle => h1 z (List.mem_cons_of_mem _ hz) hle)
            (fun z hz hle => h2 z (List.mem_cons_of_mem _ hz) hle)
            (fun a ha b hb hle hr =>
              htr a (List.mem_cons_of_mem _ ha) b (List.mem_cons_of_mem _ hb) hle hr)
            hys)
      intro z hz
      have hz2 : z ∈ x :: ys := (insertLe_perm le x ys).mem_iff.mp hz
      rcases List.mem_cons.mp hz2 with hzx | hz'
      · rw [hzx]
        exact h2 y (List.mem_cons_self _ _) hxy'
      · exact hy z hz'

/-- The sort is stable: with the input `Pairwise S` (`S x y` meaning "`x`
stands before `y`"), the output is pairwise in any `R` that refines both
`le`-comparisons relative to `S`. -/
theorem sortLe_pairwise {le : α → α → Bool} {R S : α → α → Prop}
    (hA : ∀ x y, S x y → le x y = true → R x y)
    (hB : ∀ x y, S x y → le x y = false → R y x)
    (htr : ∀ x y z, le x y = true → R y z → le x z = true) :
    ∀ {l : List α}, l.Pairwise S → (sortLe le l).Pairwise R := by
  intro l
  induction l with
  | nil =>
    intro _
    simp [sortLe]
  | cons x xs ih =>
    intro hp
    rw [List.pairwise_cons] at hp
    obtain ⟨hx, hxs⟩ := hp
    show (insertLe le x (sortLe le xs)).Pairwise R
    refine insertLe_pairwise ?_ ?_ ?_ (ih hxs)
    · intro y hy hle
      exact hA x y (hx y (mem_sortLe.mp hy)) hle
    · intro y hy hle
      exact hB x y (hx y (mem_sortLe.mp hy)) hle
    · intro y _ z _ hle hr
      exact htr x y z hle hr

theorem filterMap_eq_self_of {f : α → Option α} :
    ∀ {l : List α}, (∀ a ∈ l, f a = some a) → l.filterMap f = l := by
  intro l
  induction l with
  | nil => intro _; rfl
  | cons a l ih =>
    intro h
    rw [List.filterMap_cons, h a (List.mem_cons_self _ _),
      ih (fun b hb => h b (List.mem_cons_of_mem _ hb))]

/-! ## Lemmas about the key order -/

theorem dtLt_trans {x y z : Datetime} (h1 : dtLt x y = true) (h2 : dtLt y z = true) :
    dtLt x z = true := by
  rcases x with ⟨xd, xt⟩
  rcases y with ⟨yd, yt⟩
  rcases z with ⟨zd, zt⟩
  simp only [dtLt, Bool.or_eq_true, Bool.and_eq_true, decide_eq_true_eq] at h1 h2 ⊢
  omega

theorem dtLt_total {x y : Datetime} (h : ¬ x = y) :
    dtLt x y = true ∨ dtLt y x = true := by
  rcases x with ⟨xd, xt⟩
  rcases y with ⟨yd, yt⟩
  simp only [Datetime.mk.injEq, not_and] at h
  simp only [dtLt, Bool.or_eq_true, Bool.and_eq_true, decide_eq_true_eq]
  by_cases hd : xd = yd
  · subst hd
    have : ¬ xt = yt := h rfl
    omega
  · omega

theorem cellLt_trans {a b c : Cell} (h1 : cellLt a b = true) (h2 : cellLt b c = true) :
    cellLt a c = true := by
  cases a <;> cases b <;> cases c <;>
    simp_all [cellLt, cellRank] <;>
    first
      | omega
      | exact lt_trans h1 h2
      | exact dtLt_trans h1 h2

theorem cellLt_total {a b : Cell} (h : a ≠ b) :
    cellLt a b = true ∨ cellLt b a = true := by
  cases a <;> cases b <;>
    simp_all [cellLt, cellRank] <;>
    first
      | omega
      | exact lt_or_gt_of_ne h
      | exact dtLt_total h
      | exact fun hd => h (String.ext hd)

/-! ## Lemmas about the grouped aggregation -/

theorem groupKeys_nodup (t : Table) (gcol : String) : (groupKeys t gcol).Nodup :=
  ((sortLe_perm _ _).nodup_iff).mpr (List.nodup_dedup _)

theorem mem_groupKeys {t : Table} {gcol : String} {k : Cell} :
    k ∈ groupKeys t gcol ↔ ∃ r ∈ t, getCell r gcol = k := by
  rw [groupKeys, mem_sortLe, List.mem_dedup, List.mem_map]

theorem groupKeys_pairwise (t : Table) (gcol : String) :
    (groupKeys t gcol).Pairwise (fun a b => cellLt a b = true) := by
  refine sortLe_pairwise (S := fun a b => a ≠ b) ?_ ?_ ?_ ?_
  · intro x y hS hle
    rcases Bool.or_eq_true _ _ ▸ (cellLe.eq_def x y ▸ hle) with h | h
    · exact h
    · exact absurd (of_decide_eq_true h) hS
  · intro x y hS hle
    rcases cellLt_total hS with h | h
    · have : cellLe x y = true := by simp [cellLe, h]
      rw [this] at hle
      cases hle
    · exact h
  · intro x y z hle hr
    rcases Bool.or_eq_true _ _ ▸ (cellLe.eq_def x y ▸ hle) with h | h
    · simp [cellLe, cellLt_trans h hr]
    · rw [of_decide_eq_true h]
      simp [cellLe, hr]
  · exact List.nodup_dedup _

/-- The order produced by `sort_values(value_col, ascending=False)` over the
`groupby` output: strictly larger sums first, equal sums in the `groupby`
key order. -/
def barRel (a b : Cell × Int) : Prop :=
  b.2 < a.2 ∨ (a.2 = b.2 ∧ cellLt a.1 b.1 = true)

theorem bar_df_perm (t : Table) (gcol vcol : String) :
    List.Perm (bar_df t gcol vcol)
      ((groupKeys t gcol).map (fun k => (k, groupSum t gcol vcol k))) :=
  sortLe_perm _ _

theorem bar_df_pairwise (t : Table) (gcol vcol : String) :
    (bar_df t gcol vcol).Pairwise barRel := by
  refine sortLe_pairwise (S := fun a b => cellLt a.1 b.1 = true) ?_ ?_ ?_ ?_
  · intro x y hS hle
    have hle' : y.2 ≤ x.2 := of_decide_eq_true hle
    rcases lt_or_eq_of_le hle' with h | h
    · exact Or.inl h
    · exact Or.inr ⟨h.symm, hS⟩
  · intro x y hS hle
    have : ¬ y.2 ≤ x.2 := of_decide_eq_false hle
    exact Or.inl (lt_of_not_le this)
  · intro x y z hle hr
    have h1 : y.2 ≤ x.2 := of_decide_eq_true hle
    have h2 : z.2 ≤ y.2 := by
      rcases hr with h | ⟨h, _⟩
      · exact le_of_lt h
      · exact le_of_eq h.symm
    exact decide_eq_true (le_trans h2 h1)
  · exact List.pairwise_map.mpr (groupKeys_pairwise t gcol)

theorem mem_bar_df {t : Table} {gcol vcol : String} {k : Cell} (hk : k ∈ groupKeys t gcol) :
    (k, groupSum t gcol vcol k) ∈ bar_df t gcol vcol :=
  (bar_df_perm t gcol vcol).mem_iff.mpr
    (List.mem_map.mpr ⟨k, hk, rfl⟩)

/-! ## The aggregation totals up to the KPI sum -/

theorem kpiSum_cons (r : Row) (t : Table) (vcol : String) :
    kpiSum (r :: t) vcol = (cellNum (getCell r vcol)).getD 0 + kpiSum t vcol := by
  rw [kpiSum, metricVals, List.filterMap_cons]
  cases h : cellNum (getCell r vcol) <;> simp [h, kpiSum, metricVals]

theorem groupSum_cons (r : Row) (t : Table) (gcol vcol : String) (k : Cell) :
    groupSum (r :: t) gcol vcol k =
      (if getCell r gcol = k then (cellNum (getCell r vcol)).getD 0 else 0)
        + groupSum t gcol vcol k := by
  rw [groupSum, List.filter_cons]
  by_cases h : getCell r gcol = k
  · rw [if_pos (decide_eq_true h), if_pos h, groupSum, kpiSum_cons]
  · rw [if_neg (by simpa using h), if_neg h, groupSum, zero_add]

theorem sum_map_ite_not_mem {k0 : Cell} {m : Int} :
    ∀ {ks : List Cell}, k0 ∉ ks →
      (ks.map (fun k => if k0 = k then m else 0)).sum = 0 := by
  intro ks
  induction ks with
  | nil => intro _; rfl
  | cons k ks ih =>
    intro h
    have hne : ¬ k0 = k := fun he => h (he ▸ List.mem_cons_self _ _)
    rw [List.map_cons, List.sum_cons, if_neg hne, zero_add,
      ih (fun hm => h (List.mem_cons_of_mem _ hm))]

theorem sum_map_ite_mem {k0 : Cell} {m : Int} :
    ∀ {ks : List Cell}, ks.Nodup → k0 ∈ ks →
      (ks.map (fun k => if k0 = k then m else 0)).sum = m := by
  intro ks
  induction ks with
  | nil => intro _ h; cases h
  | cons k ks ih =>
    intro hnd hm
    rw [List.nodup_cons] at hnd
    rw [List.map_cons, List.sum_cons]
    rcases List.mem_cons.mp hm with rfl | hm'
    · rw [if_pos rfl, sum_map_ite_not_mem hnd.1, add_zero]
    · have hne : ¬ k0 = k := fun he => hnd.1 (he ▸ hm')
      rw [if_neg hne, ih hnd.2 hm', zero_add]

theorem sum_groupSum_eq_kpiSum (gcol vcol : String) :
    ∀ (t : Table) (ks : List Cell), ks.Nodup →
      (∀ r ∈ t, getCell r gcol ∈ ks) →
      (ks.map (fun k => groupSum t gcol vcol k)).sum = kpiSum t vcol := by
  intro t
  induction t with
  | nil =>
    intro ks _ _
    have : ∀ k ∈ ks, groupSum [] gcol vcol k = 0 := by
      intro k _
      rfl
    rw [List.map_congr_left (fun k hk => this k hk)]
    simp [kpiSum, metricVals]
  | cons r t ih =>
    intro ks hnd hall
    have hmap : ks.map (fun k => groupSum (r :: t) gcol vcol k)
        = ks.map (fun k =>
            (if getCell r gcol = k then (cellNum (getCell r vcol)).getD 0 else 0)
              + groupSum t gcol vcol k) :=
      List.map_congr_left (fun k _ => groupSum_cons r t gcol vcol k)
    rw [hmap, List.sum_map_add,
      sum_map_ite_mem hnd (hall r (List.mem_cons_self _ _)),
      ih ks hnd (fun r' hr' => hall r' (List.mem_cons_of_mem _ hr')),
      kpiSum_cons]

/-! ## Lemmas about paging -/

theorem total_pages_zero (P : ℕ) (hP : 1 ≤ P) : total_pages 0 P = 0 := by
  obtain ⟨p, rfl⟩ : ∃ p, P = p + 1 := ⟨P - 1, by omega⟩
  show ((((0:ℕ):ℤ) - 1).fdiv ((p + 1 : ℕ) : ℤ) + 1).toNat = 0
  have h : (((0:ℕ):ℤ) - 1).fdiv ((p + 1 : ℕ) : ℤ) = Int.negSucc (0 / (p + 1)) := rfl
  rw [h, Nat.zero_div]
  rfl

theorem total_pages_succ (m P : ℕ) : total_pages (m + 1) P = m / P + 1 := by
  show ((((m + 1 : ℕ) : ℤ) - 1).fdiv ((P : ℕ) : ℤ) + 1).toNat = m / P + 1
  have h1 : ((m + 1 : ℕ) : ℤ) - 1 = ((m : ℕ) : ℤ) := by push_cast; ring
  rw [h1, ← Int.ofNat_fdiv, ← Nat.cast_add_one, Int.toNat_natCast]

/-- Python's `(n - 1) // P + 1` is the ceiling of `n / P`, including at
`n = 0` where floor division of `-1` yields `0` pages. -/
theorem total_pages_eq (n P : ℕ) (hP : 1 ≤ P) : total_pages n P = (n + P - 1) / P := by
  cases n with
  | zero =>
    rw [total_pages_zero P hP, Nat.div_eq_of_lt (by omega)]
  | succ m =>
    rw [total_pages_succ]
    have h : m + 1 + P - 1 = m + P := by omega
    rw [h, Nat.add_div_right m hP]

theorem le_total_pages_mul (n P : ℕ) (hP : 1 ≤ P) : n ≤ total_pages n P * P := by
  cases n with
  | zero =>
    exact Nat.zero_le _
  | succ m =>
    rw [total_pages_succ]
    have h1 : P * (m / P) + m % P = m := Nat.div_add_mod m P
    have h2 : m % P < P := Nat.mod_lt _ (by omega)
    calc m + 1 = P * (m / P) + m % P + 1 := by rw [h1]
      _ ≤ P * (m / P) + P := by omega
      _ = (m / P + 1) * P := by ring

theorem flatten_page_df (l : List α) (P : ℕ) :
    ∀ k : ℕ,
      ((List.range' 1 k).map (fun pg => page_df l P pg)).flatten = l.take (k * P) := by
  intro k
  induction k with
  | zero => simp
  | succ k ih =>
    rw [List.range'_concat, List.map_append, List.flatten_append, ih]
    have h1 : 1 + 1 * k = k + 1 := by omega
    have h2 : page_df l P (k + 1) = (l.drop (k * P)).take P := by
      show (l.drop ((k + 1 - 1) * P)).take P = _
      norm_num
    have h3 : (k + 1) * P = k * P + P := by ring
    rw [h1, h3, List.take_add, List.map_cons, List.map_nil, List.flatten_cons,
      List.flatten_nil, List.append_nil, h2]

/-- The slice of page `pg` holds the rows of the index interval
`[(pg-1)*P, min (pg*P) n)` of the aggregation. -/
theorem page_df_length (l : List α) (P pg : ℕ) (hpg : 1 ≤ pg) :
    (page_df l P pg).length = min (pg * P) l.length - (pg - 1) * P := by
  obtain ⟨q, rfl⟩ : ∃ q, pg = q + 1 := ⟨pg - 1, by omega⟩
  have h1 : (q + 1) * P = q * P + P := by ring
  have h2 : (q + 1 - 1) * P = q * P := by norm_num
  rw [page_df, List.length_take, List.length_drop, h1, h2]
  omega

/-! ## Lemmas about the filter engine -/

theorem getCell_setCell_self {r : Row} {c : String} {v : Cell} :
    getCell r c ≠ Cell.na → getCell (setCell r c v) c = v := by
  induction r with
  | nil =>
    intro h
    exact absurd rfl h
  | cons kv r ih =>
    intro h
    by_cases hc : kv.1 = c
    · simp [getCell, setCell, hc, List.find?_cons]
    · have hr : getCell r c ≠ Cell.na := by
        simpa [getCell, List.find?_cons, hc] using h
      simpa [getCell, setCell, hc, List.find?_cons] using ih hr

theorem getCell_cons (k : String) (w : Cell) (r : Row) (c : String) :
    getCell ((k, w) :: r) c = if k = c then w else getCell r c := by
  by_cases h : k = c
  · simp [getCell, List.find?_cons, h]
  · simp [getCell, List.find?_cons, h]

theorem setCell_cons (k : String) (w : Cell) (r : Row) (c : String) (v : Cell) :
    setCell ((k, w) :: r) c v
      = (if k = c then (k, v) else (k, w)) :: setCell r c v := by
  by_cases h : k = c <;> simp [setCell, h]

theorem getCell_setCell_ne (r : Row) (c c' : String) (v : Cell) (h : c' ≠ c) :
    getCell (setCell r c v) c' = getCell r c' := by
  induction r with
  | nil => rfl
  | cons kv r ih =>
    obtain ⟨k, w⟩ := kv
    rw [setCell_cons]
    by_cases hc : k = c
    · have hcc' : ¬ k = c' := fun he => h (he ▸ hc)
      rw [if_pos hc, getCell_cons, getCell_cons, if_neg hcc', if_neg hcc', ih]
    · rw [if_neg hc, getCell_cons, getCell_cons]
      by_cases hc' : k = c'
      · rw [if_pos hc', if_pos hc']
      · rw [if_neg hc', if_neg hc', ih]

theorem setCell_setCell (r : Row) (c : String) (v w : Cell) :
    setCell (setCell r c v) c w = setCell r c w := by
  rw [setCell, setCell, List.map_map, setCell]
  refine List.map_congr_left ?_
  intro kv _
  by_cases hc : kv.1 = c <;> simp [Function.comp, hc]

/-- Every row the parse step emits carries a parsed datetime in the date
column, and re-applying the in-place parse assignment leaves it unchanged. -/
theorem mem_parsedRows_step {p : Cell → Option Datetime} {dcol : String}
    {t : Table} {r' : Row} (h : r' ∈ parsedRows p dcol t) :
    ∃ d : Datetime, getCell r' dcol = Cell.dt d ∧ setCell r' dcol (Cell.dt d) = r' := by
  rw [parsedRows, List.mem_filterMap] at h
  obtain ⟨r, _, hr⟩ := h
  cases hd : toDatetime p (getCell r dcol) with
  | none => rw [hd] at hr; cases hr
  | some d =>
    rw [hd] at hr
    have hr' : setCell r dcol (Cell.dt d) = r' := by
      cases hr
      rfl
    have hna : getCell r dcol ≠ Cell.na := by
      intro he
      rw [he] at hd
      cases hd
    refine ⟨d, ?_, ?_⟩
    · rw [← hr']
      exact getCell_setCell_self hna
    · rw [← hr', setCell_setCell]

theorem parsedRows_eq_self {p : Cell → Option Datetime} {dcol : String}
    {t : Table} (h : ∀ r' ∈ t, ∃ d, getCell r' dcol = Cell.dt d ∧
      setCell r' dcol (Cell.dt d) = r') :
    parsedRows p dcol t = t := by
  apply filterMap_eq_self_of
  intro r' hr'
  obtain ⟨d, hd, hset⟩ := h r' hr'
  show (match toDatetime p (getCell r' dcol) with
    | some d => some (setCell r' dcol (Cell.dt d))
    | none => none) = some r'
  rw [hd]
  show some (setCell r' dcol (Cell.dt d)) = some r'
  rw [hset]

theorem rangeRows_subset {dcol : String} {s e : Int} {t : Table} {r : Row}
    (h : r ∈ rangeRows dcol s e t) : r ∈ t :=
  List.mem_of_mem_filter h

theorem filtered_df_nil (p : Cell → Option Datetime) (dcol : String) (s e : Int) :
    filtered_df p dcol s e [] = [] := by
  unfold filtered_df
  rw [if_pos (show parsedRows p dcol [] = [] from rfl)]

theorem filtered_df_idem (p : Cell → Option Datetime) (dcol : String) (s e : Int)
    (df : Table) :
    filtered_df p dcol s e (filtered_df p dcol s e df) = filtered_df p dcol s e df := by
  by_cases h : parsedRows p dcol df = []
  · have h0 : filtered_df p dcol s e df = [] := by
      unfold filtered_df
      rw [if_pos h]
    rw [h0, filtered_df_nil]
  · have h0 : filtered_df p dcol s e df = rangeRows dcol s e (parsedRows p dcol df) := by
      unfold filtered_df
      rw [if_neg h]
    have hT : parsedRows p dcol (rangeRows dcol s e (parsedRows p dcol df))
        = rangeRows dcol s e (parsedRows p dcol df) :=
      parsedRows_eq_self (fun r' hr' => mem_parsedRows_step (rangeRows_subset hr'))
    have hR : rangeRows dcol s e (rangeRows dcol s e (parsedRows p dcol df))
        = rangeRows dcol s e (parsedRows p dcol df) := by
      unfold rangeRows
      apply List.filter_eq_self.mpr
      intro r hr
      exact (List.mem_filter.mp hr).2
    rw [h0]
    unfold filtered_df
    rw [hT]
    by_cases h2 : rangeRows dcol s e (parsedRows p dcol df) = []
    · rw [if_pos h2, h2]
    · rw [if_neg h2, hR]

/-- The one-row step of the whole date-filter stage: parse, drop on failure,
keep on range membership, with the date column overwritten by its parsed
value. -/
def filterRowStep (p : Cell → Option Datetime) (dcol : String) (s e : Int)
    (r : Row) : Option Row :=
  match toDatetime p (getCell r dcol) with
  | some d =>
      if (decide (s ≤ d.day) && decide (d.day ≤ e)) = true
      then some (setCell r dcol (Cell.dt d)) else none
  | none => none

theorem filtered_df_eq_filterMap (p : Cell → Option Datetime) (dcol : String)
    (s e : Int) (df : Table) :
    filtered_df p dcol s e df = df.filterMap (filterRowStep p dcol s e) := by
  by_cases h : parsedRows p dcol df = []
  · unfold filtered_df
    rw [if_pos h]
    rw [parsedRows, List.filterMap_eq_nil_iff] at h
    symm
    rw [List.filterMap_eq_nil_iff]
    intro r hr
    have h2 : (match toDatetime p (getCell r dcol) with
        | some d => some (setCell r dcol (Cell.dt d))
        | none => none) = none := h r hr
    show filterRowStep p dcol s e r = none
    unfold filterRowStep
    cases hd : toDatetime p (getCell r dcol) with
    | none => rfl
    | some d =>
      rw [hd] at h2
      cases h2
  · unfold filtered_df
    rw [if_neg h]
    unfold rangeRows parsedRows
    rw [List.filter_filterMap]
    apply List.filterMap_congr
    intro r _
    show ((match toDatetime p (getCell r dcol) with
        | some d => some (setCell r dcol (Cell.dt d))
        | none => none).filter (fun row =>
          match getCell row dcol with
          | Cell.dt d' => decide (s ≤ d'.day) && decide (d'.day ≤ e)
          | _ => false)) = filterRowStep p dcol s e r
    unfold filterRowStep
    cases hd : toDatetime p (getCell r dcol) with
    | none => rfl
    | some d =>
      have hget : getCell (setCell r dcol (Cell.dt d)) dcol = Cell.dt d := by
        apply getCell_setCell_self
        intro he
        rw [he] at hd
        cases hd
      rw [Option.filter_some, hget]

theorem runFilter_empty_message (p : Cell → Option Datetime) (dcol : String)
    (s e : Int) (df : Table)
    (h : parsedRows p dcol df = [] ∨ rangeRows dcol s e (parsedRows p dcol df) = []) :
    runFilter p (some dcol) s e df
      = Except.error "No data available after filtering." := by
  have hf : filtered_df p dcol s e df = [] := by
    unfold filtered_df
    rcases h with h | h
    · rw [if_pos h]
    · by_cases h2 : parsedRows p dcol df = []
      · rw [if_pos h2]
      · rw [if_neg h2, h]
  show (if filtered_df p dcol s e df = [] then
      Except.error "No data available after filtering."
    else Except.ok (filtered_df p dcol s e df))
      = Except.error "No data available after filtering."
  rw [if_pos hf]

/-- Lines 63–88 as a state pair: the stage works on `df.copy()` (line 63),
so it yields the untouched loaded table alongside the filtered view built
from the copy. -/
def filterStage (p : Cell → Option Datetime) (dcol : String) (s e : Int)
    (df : Table) : Table × Table :=
  (df, filtered_df p dcol s e df)

/-! ## Concrete tables used as inputs for counterexamples and witnesses -/

/-- A date parser that fails on every raw value (all-garbage date column). -/
def pFail : Cell → Option Datetime := fun _ => none

/-- Two rows with tied sums whose keys first appear in the order `2`, `1`. -/
def tC1 : Table :=
  [[("region", Cell.num 2), ("amt", Cell.num 5)],
   [("region", Cell.num 1), ("amt", Cell.num 5)]]

/-- A six-group aggregation result. -/
def lC2 : List (Cell × Int) :=
  [(Cell.str "a", 9), (Cell.str "b", 7), (Cell.str "c", 5),
   (Cell.str "d", 3), (Cell.str "e", 2), (Cell.str "f", 1)]

/-- A twelve-group aggregation result. -/
def lC3 : List (Cell × Int) :=
  (List.range 12).map (fun i => (Cell.num (i : Int), (12 - i : Int)))

/-- Rows whose group key is missing for two of three rows. -/
def tC4 : Table :=
  [[("g", Cell.na), ("amt", Cell.num 3)],
   [("g", Cell.str "a"), ("amt", Cell.num 1)],
   [("g", Cell.na), ("amt", Cell.num 2)]]

/-- A table whose metric column is entirely missing. -/
def tC5 : Table := [[("amt", Cell.na)], [("amt", Cell.na)]]

/-- A table whose date column never parses. -/
def tC6a : Table := [[("date", Cell.str "garbage"), ("amt", Cell.num 1)]]

/-- A table with one valid date (day 0). -/
def tC6b : Table := [[("date", Cell.dt ⟨0, 0⟩), ("amt", Cell.num 1)]]

/-- A filtered table with exactly one distinct calendar date. -/
def tC7 : Table :=
  [[("date", Cell.dt ⟨0, 0⟩), ("g", Cell.str "x"), ("amt", Cell.num 1)],
   [("date", Cell.dt ⟨0, 5⟩), ("g", Cell.str "y"), ("amt", Cell.num 2)]]

/-- Two rows on two distinct days, out of order, with time-of-day set. -/
def tC9 : Table :=
  [[("date", Cell.dt ⟨1, 7⟩), ("amt", Cell.num 2)],
   [("date", Cell.dt ⟨0, 3⟩), ("amt", Cell.num 1)]]

/-! ## Claims -/

/-- C1, counterexample: in `tC1` the key `2` first appears before `1` and
both groups sum to `5`, yet `bar_df` lists `(1, 5)` first —
`groupby(sort=True)` emits keys in ascending key order and the descending
sort preserves it on ties, so the first-appearance tie-break the claim
asserts does not hold. -/
theorem claim_c1_counterexample :
    (tC1.map (fun r => getCell r "region")) = [Cell.num 2, Cell.num 1]
    ∧ groupSum tC1 "region" "amt" (Cell.num 1) = 5
    ∧ groupSum tC1 "region" "amt" (Cell.num 2) = 5
    ∧ bar_df tC1 "region" "amt" = [(Cell.num 1, 5), (Cell.num 2, 5)] := by
  refine ⟨by decide, by decide, by decide, by decide⟩

/-- C1 (amended): for every filtered table, grouping by the group column and
summing the metric yields one pair per distinct key, sorted by sum
descending; two groups with equal sums are ordered by `groupby`'s ascending
key order (smaller key first, missing key last), not by the order in which
the keys first appear in the source table. -/
theorem claim_c1 (t : Table) (gcol vcol : String) :
    List.Perm (bar_df t gcol vcol)
      ((groupKeys t gcol).map (fun k => (k, groupSum t gcol vcol k)))
    ∧ (bar_df t gcol vcol).Pairwise barRel :=
  ⟨bar_df_perm t gcol vcol, bar_df_pairwise t gcol vcol⟩

/-- C2: for every page size `5 ≤ P ≤ 40` and aggregation `l`, the computed
page count is `⌈|l| / P⌉`; the page slices are the index intervals
`[(pg-1)·P, min (pg·P) |l|)`, they concatenate in order to exactly `l`
(no gap), and any earlier page's interval ends before a later page's
begins (no overlap). -/
theorem claim_c2 (l : List (Cell × Int)) (P : ℕ) (h5 : 5 ≤ P) (h40 : P ≤ 40) :
    total_pages l.length P = (l.length + P - 1) / P
    ∧ ((List.range' 1 (total_pages l.length P)).map
        (fun pg => page_df l P pg)).flatten = l
    ∧ (∀ pg, 1 ≤ pg →
        (page_df l P pg).length = min (pg * P) l.length - (pg - 1) * P)
    ∧ (∀ a b : ℕ, 1 ≤ a → a < b →
        (a - 1) * P + (page_df l P a).length ≤ (b - 1) * P) := by
  have hP : 1 ≤ P := by omega
  refine ⟨total_pages_eq _ _ hP, ?_, ?_, ?_⟩
  · rw [flatten_page_df]
    exact List.take_of_length_le (le_total_pages_mul _ _ hP)
  · intro pg hpg
    exact page_df_length l P pg hpg
  · intro a b ha hab
    have h1 := page_df_length l P a ha
    have h4 : (a - 1) * P + P = a * P := by
      obtain ⟨a0, rfl⟩ : ∃ a0, a = a0 + 1 := ⟨a - 1, by omega⟩
      rw [Nat.add_sub_cancel, Nat.succ_mul]
    have h2 : (page_df l P a).length ≤ P := by
      rw [h1]
      omega
    have h3 : a * P ≤ (b - 1) * P := Nat.mul_le_mul_right P (by omega)
    omega

/-- C2, witness at `P = 5` and a six-element aggregation. -/
theorem claim_c2_witness :
    ((List.range' 1 (total_pages lC2.length 5)).map
      (fun pg => page_df lC2 5 pg)).flatten = lC2 :=
  (claim_c2 lC2 5 (by decide) (by decide)).2.1

/-- C3: the page widget clamps any requested index into `[1, total_pages]`;
in particular with page size 5 and 12 groups there are 3 pages, a request
for page 4 is clamped to page 3, and page 3's slice is rows 10..12 —
2 rows — of the aggregation, not an empty slice. -/
theorem claim_c3 :
    (∀ req tp : ℕ, 1 ≤ tp → 1 ≤ page req tp ∧ page req tp ≤ tp)
    ∧ total_pages 12 5 = 3
    ∧ page 4 (total_pages 12 5) = 3
    ∧ (∀ l : List (Cell × Int), l.length = 12 →
        page_df l 5 (page 4 (total_pages 12 5)) = l.drop 10
        ∧ (page_df l 5 (page 4 (total_pages 12 5))).length = 2) := by
  refine ⟨?_, by decide, by decide, ?_⟩
  · intro req tp htp
    simp only [page]
    omega
  · intro l hl
    have hpg : page 4 (total_pages 12 5) = 3 := by decide
    rw [hpg]
    have hdf : page_df l 5 3 = (l.drop 10).take 5 := rfl
    have hlen : (l.drop 10).length ≤ 5 := by
      rw [List.length_drop, hl]
      omega
    constructor
    · rw [hdf]
      exact List.take_of_length_le hlen
    · rw [hdf, List.length_take, List.length_drop, hl]
      omega

/-- C3, witness: with 12 concrete groups, the clamped request for page 4
produces page 3's two-row slice. -/
theorem claim_c3_witness :
    page_df lC3 5 (page 4 (total_pages 12 5)) = lC3.drop 10 :=
  (claim_c3.2.2.2 lC3 (by decide)).1

/-- C4: for every filtered table and any group column, `bar_df` carries one
bucket per distinct key (keys are pairwise distinct), every row's key —
including the missing key `na` — owns a bucket holding the sum of its rows'
metric values (rows are never dropped), and the per-group sums add up
exactly to the whole-table KPI sum. -/
theorem claim_c4 (t : Table) (gcol vcol : String) :
    ((bar_df t gcol vcol).map Prod.snd).sum = kpiSum t vcol
    ∧ ((bar_df t gcol vcol).map Prod.fst).Nodup
    ∧ ∀ r ∈ t,
        (getCell r gcol, groupSum t gcol vcol (getCell r gcol)) ∈ bar_df t gcol vcol := by
  refine ⟨?_, ?_, ?_⟩
  · have h1 : ((bar_df t gcol vcol).map Prod.snd).sum
        = (((groupKeys t gcol).map
            (fun k => (k, groupSum t gcol vcol k))).map Prod.snd).sum :=
      List.Perm.sum_eq ((bar_df_perm t gcol vcol).map Prod.snd)
    rw [h1, List.map_map]
    exact sum_groupSum_eq_kpiSum gcol vcol t (groupKeys t gcol)
      (groupKeys_nodup t gcol) (fun r hr => mem_groupKeys.mpr ⟨r, hr, rfl⟩)
  · have h2 : ((groupKeys t gcol).map
        (fun k => (k, groupSum t gcol vcol k))).map Prod.fst = groupKeys t gcol := by
      rw [List.map_map]
      exact List.map_id' _
    refine ((bar_df_perm t gcol vcol).map Prod.fst).nodup_iff.mpr ?_
    rw [h2]
    exact groupKeys_nodup t gcol
  · intro r hr
    exact mem_bar_df (mem_groupKeys.mpr ⟨r, hr, rfl⟩)

/-- C4, witness: in `tC4` two rows carry a missing group key; they form the
single distinguished bucket `(na, 3 + 2)` of the aggregation. -/
theorem claim_c4_witness :
    (Cell.na, groupSum tC4 "g" "amt" Cell.na) ∈ bar_df tC4 "g" "amt" :=
  (claim_c4 tC4 "g" "amt").2.2 [("g", Cell.na), ("amt", Cell.num 3)] (by decide)

/-- C5, counterexample: on a table whose metric column is entirely missing
the code raises nothing — line 98 renders the numeric sum `0`, lines 99–100
render `NaN` — so no `AllMissingError` replaces the numeric results. -/
theorem claim_c5_counterexample :
    metricVals tC5 "amt" = [] ∧ kpis tC5 "amt" = (0, none, none) := by
  refine ⟨by decide, ?_⟩
  rfl

/-- C5 (amended): on a filtered table whose metric column consists entirely
of missing values the KPI computation does not fail: it reports a sum of
`0` and undefined (`NaN`) mean and max; no `AllMissingError` exists in the
code. -/
theorem claim_c5 (t : Table) (vcol : String) (h : metricVals t vcol = []) :
    kpis t vcol = (0, none, none) := by
  unfold kpis kpiSum kpiMean kpiMax
  rw [h]
  rfl

/-- C5, witness at the all-missing table `tC5`. -/
theorem claim_c5_witness : kpis tC5 "amt" = (0, none, none) :=
  claim_c5 tC5 "amt" (by decide)

/-- C6, counterexample: a date column where every value fails to parse
(`tC6a`) and a date column with valid dates that the range filter empties
(`tC6b` with range `[5, 6]`) halt with the *same* user-visible message
`"No data available after filtering."` — the two conditions are not
distinguished. -/
theorem claim_c6_counterexample :
    runFilter pFail (some "date") 0 1 tC6a
        = Except.error "No data available after filtering."
    ∧ runFilter pFail (some "date") 5 6 tC6b
        = Except.error "No data available after filtering."
    ∧ runFilter pFail (some "date") 0 1 tC6a
        = runFilter pFail (some "date") 5 6 tC6b := by
  refine ⟨rfl, rfl, rfl⟩

/-- C6 (amended): whether the date parse leaves zero rows or the range
filter then eliminates every row, the pipeline halts with the single
warning message `"No data available after filtering."`; the two emptiness
conditions share one user-visible message instead of producing distinct
ones. -/
theorem claim_c6 (p : Cell → Option Datetime) (dcol : String) (s e : Int)
    (df : Table)
    (h : parsedRows p dcol df = []
      ∨ rangeRows dcol s e (parsedRows p dcol df) = []) :
    runFilter p (some dcol) s e df
      = Except.error "No data available after filtering." :=
  runFilter_empty_message p dcol s e df h

/-- C6, witness at the all-garbage date table. -/
theorem claim_c6_witness :
    runFilter pFail (some "date") 2 3 tC6a
      = Except.error "No data available after filtering." :=
  claim_c6 pFail "date" 2 3 tC6a (Or.inl (by decide))

/-- C7: when fewer than two distinct calendar dates remain, the time-series
panel of the rendering pass degrades to the warning message while the KPI
row, the paged grouped aggregation and the distribution data of the same
pass are still exactly their standalone computations (partial-failure
isolation). -/
theorem claim_c7 (t : Table) (vcol gcol dcol : String) (P req : ℕ)
    (h : (ts_df t dcol vcol).length < 2) :
    (renderPass t vcol gcol dcol P req).series
        = Except.error "Not enough data for time series."
    ∧ (renderPass t vcol gcol dcol P req).kpiRow = kpis t vcol
    ∧ (renderPass t vcol gcol dcol P req).barPage
        = (page_df (bar_df t gcol vcol) P
            (page req (total_pages (bar_df t gcol vcol).length P)),
           page req (total_pages (bar_df t gcol vcol).length P),
           total_pages (bar_df t gcol vcol).length P)
    ∧ (renderPass t vcol gcol dcol P req).dist = distVals t vcol := by
  refine ⟨?_, rfl, rfl, rfl⟩
  show (if (ts_df t dcol vcol).length < 2 then
      Except.error "Not enough data for time series."
    else Except.ok (ts_df t dcol vcol)) = _
  rw [if_pos h]

/-- C7, witness: `tC7` has one distinct date, so its pass carries the
series warning. -/
theorem claim_c7_witness :
    (renderPass tC7 "amt" "g" "date" 5 1).series
      = Except.error "Not enough data for time series." :=
  (claim_c7 tC7 "amt" "g" "date" 5 1 (by decide)).1

/-- C8: the date filter stage is idempotent — re-running parse, drop and
range filtering with the same date column and inclusive range on its own
output returns that output unchanged. -/
theorem claim_c8 (p : Cell → Option Datetime) (dcol : String) (s e : Int)
    (df : Table) :
    filtered_df p dcol s e (filtered_df p dcol s e df)
      = filtered_df p dcol s e df :=
  filtered_df_idem p dcol s e df

/-- C9: the time series holds exactly one point per distinct calendar day of
the date column (days are pairwise distinct and are exactly those occurring
in the table), each point's value is the sum of the metric over that day's
rows, the points are sorted strictly ascending by day, and the day of a
datetime cell discards its time-of-day component. -/
theorem claim_c9 (t : Table) (dcol vcol : String) :
    (ts_df t dcol vcol).map Prod.fst = seriesDays t dcol
    ∧ (seriesDays t dcol).Nodup
    ∧ (∀ d : Int, d ∈ seriesDays t dcol ↔ ∃ r ∈ t, rowDay dcol r = some d)
    ∧ (∀ pt ∈ ts_df t dcol vcol,
        pt.2 = kpiSum (t.filter (fun r => rowDay dcol r = some pt.1)) vcol)
    ∧ ((ts_df t dcol vcol).map Prod.fst).Pairwise (fun a b => a < b)
    ∧ (∀ (r : Row) (d : Datetime), getCell r dcol = Cell.dt d →
        rowDay dcol r = some d.day) := by
  have hmap : (ts_df t dcol vcol).map Prod.fst = seriesDays t dcol := by
    rw [ts_df, List.map_map]
    exact List.map_id' _
  have hsorted : (seriesDays t dcol).Pairwise (fun a b => a < b) := by
    refine sortLe_pairwise (S := fun a b => a ≠ b) ?_ ?_ ?_ (List.nodup_dedup _)
    · intro x y hS hle
      exact lt_of_le_of_ne (of_decide_eq_true hle) hS
    · intro x y hS hle
      exact lt_of_not_le (of_decide_eq_false hle)
    · intro x y z hle hr
      exact decide_eq_true (le_trans (of_decide_eq_true hle) (le_of_lt hr))
  refine ⟨hmap, ?_, ?_, ?_, ?_, ?_⟩
  · exact ((sortLe_perm _ _).nodup_iff).mpr (List.nodup_dedup _)
  · intro d
    rw [seriesDays, mem_sortLe, List.mem_dedup, List.mem_filterMap]
  · intro pt hpt
    rw [ts_df] at hpt
    obtain ⟨d, _, rfl⟩ := List.mem_map.mp hpt
    rfl
  · rw [hmap]
    exact hsorted
  · intro r d h
    unfold rowDay
    rw [h]

/-- C9, witness: the first row of `tC9` has the datetime `⟨1, 7⟩`; its
calendar day is `1`, the time-of-day `7` being discarded. -/
theorem claim_c9_witness :
    rowDay "date" [("date", Cell.dt ⟨1, 7⟩), ("amt", Cell.num 2)] = some 1 :=
  (claim_c9 tC9 "date" "amt").2.2.2.2.2
    [("date", Cell.dt ⟨1, 7⟩), ("amt", Cell.num 2)] ⟨1, 7⟩ (by decide)

/-- C10: the filter stage leaves the loaded table untouched (it works on the
copy of line 63); its output is the in-order subsequence of the input rows
that parse and fall in range, each kept row unchanged except for the date
column, which now holds the parsed datetime; reading any other column of a
row is unaffected by that in-place date assignment. -/
theorem claim_c10 (p : Cell → Option Datetime) (dcol : String) (s e : Int)
    (df : Table) :
    (filterStage p dcol s e df).1 = df
    ∧ (filterStage p dcol s e df).2 = df.filterMap (filterRowStep p dcol s e)
    ∧ (∀ (r : Row) (v : Cell) (c : String), c ≠ dcol →
        getCell (setCell r dcol v) c = getCell r c) :=
  ⟨rfl, filtered_df_eq_filterMap p dcol s e df,
    fun r v c hc => getCell_setCell_ne r dcol c v hc⟩

/-- C10, witness: overwriting the date column of a concrete row leaves its
metric column readable unchanged, and the stage preserves the loaded
table. -/
theorem claim_c10_witness :
    getCell (setCell [("date", Cell.na), ("amt", Cell.num 7)] "date" (Cell.num 0))
        "amt"
      = getCell [("date", Cell.na), ("amt", Cell.num 7)] "amt" :=
  (claim_c10 pFail "date" 0 1 tC6b).2.2
    [("date", Cell.na), ("amt", Cell.num 7)] (Cell.num 0) "amt" (by decide)

end Dashboard
